import Mathlib

/-
Verification of the treediff tool (src/treediff.py): a shallow embedding of the
tree-diff pipeline (locality-sensitive node sketching, line-to-node maps,
text-diff interval adjustment, whitelist restriction, distance accumulation
and edit-script compilation) together with theorems settling the documented
properties of the design.

Conventions of the embedding:
- Python node objects are modelled by the `Node` structure; `id(node)` is
  modelled by the `nid` field (CPython guarantees `id` is injective on live
  objects, so diff operations carry the node id; `dereference_idptr` is the
  inverse of `id` and is left implicit).
- Only the node attributes the core reads are modelled: `token`, `roles`,
  `start_position.line`, `end_position.line`, `children`.
- Python functions that can raise return `Option`: `none` models an
  uncaught exception (IndexError, ValueError, AssertionError, NameError).
- Python sets of ids are modelled as duplicate-free lists (the iteration
  order of a CPython set is unspecified; the model fixes insertion order).
- External collaborators are not repository code and are modelled by their
  interfaces: `difflib.Differ.compare` and `lapjv.lapjv` are parameters of
  `treediff`; `farmhash.hash128withseed` and `numpy.random.choice` get
  concrete deterministic stand-ins (`farmhash128`, `np_choice`) that match
  the shape and failure conditions the program depends on.
- Unbounded Python recursion/loops are realised with an explicit fuel
  argument that is provably (and at every evaluated input, actually)
  sufficient; running out of fuel yields `none` and is unreachable for the
  initial fuel values used by the wrappers.
-/

namespace Treediff

/-- HASH_SIZE constant of treediff.py (line 30). -/
def HASH_SIZE : Nat := 16

/-! ## Python set operations on id lists -/

/-- Python `set.update` / union: add the members of `t` to `s`, keeping
insertion order and dropping duplicates. -/
def set_update (s t : List Nat) : List Nat :=
  t.foldl (fun s x => if x ∈ s then s else s.concat x) s

/-- Python `set(t)`: duplicate-free list of the members of `t` in first
occurrence order. -/
def set_of (t : List Nat) : List Nat := set_update [] t

/-- Python set difference `s - t`. -/
def set_diff (s t : List Nat) : List Nat := s.filter (fun x => !(t.contains x))

/-! ## External hashing and sampling collaborators -/

/-- Model of the external `farmhash.hash128withseed`: a deterministic
function of `(token, seed1, seed2)` returning two 64-bit words. The
pipeline depends only on determinism and on the 64-bit range of the two
outputs, so a simple polynomial stand-in is used. -/
def farmhash128 (token : String) (seed1 seed2 : Nat) : Nat × Nat :=
  let h := token.data.foldl (fun a c => (a * 131 + c.toNat + 1) % 2 ^ 128)
    ((seed1 + 2 ^ 64 * seed2 + 1) % 2 ^ 128)
  (h % 2 ^ 64, h / 2 ^ 64 % 2 ^ 64)

/-- Python `int.to_bytes(k, "little")`: the `k` little-endian base-256
digits. For the 64-bit farmhash words `k = 8` never overflows. -/
def nat_to_bytes_le (k n : Nat) : List Nat :=
  (List.range k).map (fun i => n / 256 ^ i % 256)

/-- Model of `numpy.random.seed(seed)` followed by
`numpy.random.choice(pop, s, replace=False)`: a deterministic selection of
`s` distinct elements of `pop`, raising (`none`) exactly when more samples
are requested than the population holds, which is the failure condition of
the real call with `replace=False`. -/
def np_choice (seed : Nat) (pop : List Nat) (s : Nat) : Option (List Nat) :=
  if s ≤ pop.length then some ((pop.drop (seed % (pop.length + 1))).take s ++
    (pop.take (seed % (pop.length + 1))).take (s - (pop.length - seed % (pop.length + 1))))
  else none

/-- Ascending insertion into a sorted list, for Python `sorted`. -/
def insert_asc (x : Nat) : List Nat → List Nat
  | [] => [x]
  | y :: ys => if x ≤ y then x :: y :: ys else y :: insert_asc x ys

/-- Python `sorted` on a byte string. -/
def sort_asc (l : List Nat) : List Nat := l.foldr insert_asc []

/-- Descending lexicographic insertion on `(s, i)` pairs, for
`ss2.sort(reverse=True)` in `hash_node`. -/
def insert_desc (x : Nat × Nat) : List (Nat × Nat) → List (Nat × Nat)
  | [] => [x]
  | y :: ys =>
    if y.1 < x.1 ∨ (y.1 = x.1 ∧ y.2 ≤ x.2) then x :: y :: ys else y :: insert_desc x ys

/-- Python `list.sort(reverse=True)` on `(s, i)` pairs. -/
def sort_desc (l : List (Nat × Nat)) : List (Nat × Nat) := l.foldr insert_desc []

/-! ## The AST node model -/

/-- Node of the external AST (bblfsh UAST): the attributes `treediff.py`
consumes. `nid` models `id(node)`; `startLine`/`endLine` model
`start_position.line` and `end_position.line` (`startLine = 0` means "no
position"). -/
structure Node where
  nid : Nat
  token : String
  roles : List Nat
  startLine : Nat
  endLine : Nat
  children : List Node
deriving Repr

/-- Subtree membership: `InTree n r` holds when `n` is `r` itself or a node
of one of its child subtrees (the nodes visited by the traversals of
`treediff.py`). -/
inductive InTree : Node → Node → Prop where
  | here (n : Node) : InTree n n
  | via {n c r : Node} : c ∈ r.children → InTree n c → InTree n r

mutual

/-- Number of nodes of a subtree; an upper bound on recursion depth, used
as the canonical fuel of the fueled traversals below. -/
def nsize : Node → Nat
  | .mk _ _ _ _ _ cs => 1 + nsizeL cs

/-- Summed `nsize` over a list of subtrees. -/
def nsizeL : List Node → Nat
  | [] => 0
  | c :: cs => nsize c + nsizeL cs

end

/-! ## hash_node (treediff.py lines 33-105) -/

/-- Inner `hash_self` of `hash_node` (lines 34-46): a node with a position
that is in the whitelist contributes weight 1 and the 16 little-endian bytes
of the 128-bit farmhash of its token, seeded by its packed roles; any other
node contributes `(0, b"")`. -/
def hash_self (node : Node) (white_list : List Nat) : Nat × List Nat :=
  if node.startLine = 0 ∨ node.nid ∉ white_list then (0, [])
  else
    let roles := node.roles
    let seed1 := (List.range (min 4 roles.length)).foldl
      (fun s i => s ||| (roles.getD i 0) <<< (i * 8)) 0
    let seed2 :=
      if 4 < roles.length then
        (List.range (min 4 (roles.length - 4))).foldl
          (fun s i => s ||| (roles.getD (i + 4) 0) <<< (i * 8)) 0
      else 0
    let h := farmhash128 node.token seed1 seed2
    (1, nat_to_bytes_le 8 h.1 ++ nat_to_bytes_le 8 h.2)

/-- One pass of the balance loop (lines 71-80): walk `ss2` (the indices in
descending `(s, i)` order), apply `fix` to each eligible entry, stop early
when `delta` reaches 0 (the `break`). State is `(sample_sizes, delta,
possible)`. -/
def balance_pass (ss2 : List (Nat × Nat)) (sizes : List Nat) (delta fix : Int) :
    List Nat × Int × Bool :=
  ss2.foldl
    (fun st p =>
      if st.2.1 = 0 then st
      else if st.1.getD p.2 0 < 2 ∧ fix < 0 then st
      else
        (st.1.set p.2 (if 0 < fix then st.1.getD p.2 0 + 1 else st.1.getD p.2 0 - 1),
         st.2.1 - fix, true))
    (sizes, delta, false)

/-- The `while delta != 0 and possible` loop of `hash_node`. Each pass that
reports `possible` moves `delta` at least one step toward 0 and never past
it, so fuel `delta.natAbs + 1` (used by the caller) is always sufficient and
the fuel-exhaustion branch is unreachable. -/
def balance_loop : Nat → List Nat → Int → List (Nat × Nat) → Int → List Nat × Int × Bool
  | 0, sizes, delta, _, _ => (sizes, delta, true)
  | fuel + 1, sizes, delta, ss2, fix =>
    if delta = 0 then (sizes, delta, true)
    else
      let r := balance_pass ss2 sizes delta fix
      if r.2.2 then balance_loop fuel r.1 r.2.1 ss2 fix else (r.1, r.2.1, false)

/-- Recursive `hash_node` (lines 33-105), fueled. Returns the fingerprint
map entries recorded in insertion order (the Python code mutates a shared
dict) together with the `(weight, bytes)` pair the call returns; `none`
models an uncaught exception. The recursion depth is bounded by `nsize`
of the node, so the wrapper `hash_node` below never exhausts fuel.
Line-by-line notes:
- line 59 `if weights == 0` compares a list with an integer and is never
  true, so it is omitted;
- the sampling loop zips `inner_hashes` against `sample_sizes` even though
  `sample_sizes` was built only from the entries with positive weight
  (line 57), reproducing the positional misalignment of the source;
- `numpy.hstack(choices)` raises on an empty list (modelled by the
  `choices.isEmpty` check);
- `sample_sizes[-1] = 1` on an empty list raises IndexError. -/
def hash_nodeF : Nat → Node → Nat → List Nat → Option (List (Nat × List Nat) × Nat × List Nat)
  | 0, _, _, _ => none
  | fuel + 1, node, seed, white_list =>
    if node.children.isEmpty then
      let h := hash_self node white_list
      some (if 0 < h.1 then [(node.nid, h.2)] else [], h)
    else
      match node.children.foldlM
          (fun (acc : List (Nat × List Nat) × List (Nat × List Nat)) c =>
            match hash_nodeF fuel c seed white_list with
            | none => none
            | some r => some (acc.1 ++ r.1, acc.2 ++ [(r.2.1, r.2.2)]))
          ([], []) with
      | none => none
      | some cres =>
        let inner_hashes := cres.2 ++ [hash_self node white_list]
        if node.nid ∉ white_list then some (cres.1, 0, [])
        else
          let weights := (inner_hashes.filter (fun h => 0 < h.1)).map Prod.fst
          let total := weights.sum
          let sample_sizes0 := weights.map (fun w => max 1 (w * HASH_SIZE / total))
          let delta : Int := (HASH_SIZE : Int) - (sample_sizes0.sum : Int)
          let sizes? : Option (List Nat) :=
            if delta = 0 then some sample_sizes0
            else
              let ss2 := sort_desc (sample_sizes0.enum.map (fun p => (p.2, p.1)))
              let fix : Int := if 0 < delta then 1 else -1
              let r := balance_loop (delta.natAbs + 1) sample_sizes0 delta ss2 fix
              if r.2.2 then
                if r.1.all (fun s => 0 < s) then some r.1 else none
              else
                match np_choice seed (List.range (r.1.length - 1)) 15 with
                | none => none
                | some choice =>
                  let ones := choice.foldl (fun l i => l.set i 1)
                    (r.1.map (fun _ => 0))
                  if ones.isEmpty then none
                  else some (ones.set (ones.length - 1) 1)
          match sizes? with
          | none => none
          | some sizes =>
            match (inner_hashes.zip sizes).foldlM
                (fun (acc : List (List Nat)) p =>
                  if p.1.1 = 0 then some acc
                  else
                    match np_choice seed (sort_asc p.1.2) p.2 with
                    | none => none
                    | some c => some (acc.concat c))
                [] with
            | none => none
            | some choices =>
              if choices.isEmpty then none
              else
                let bytes := choices.flatten
                some (cres.1.concat (node.nid, bytes), total, bytes)

/-- hash_node with its canonical (always sufficient) fuel. -/
def hash_node (node : Node) (seed : Nat) (white_list : List Nat) :
    Option (List (Nat × List Nat) × Nat × List Nat) :=
  hash_nodeF (nsize node) node seed white_list

/-! ## Line2Nodes (treediff.py lines 118-140) -/

/-- Append `node.nid` to every line slot its position range covers
(`__init__` lines 124-126); `none` models the IndexError raised when a
covered line falls outside the allocated `nlines` slots. -/
def lines_add (lines : List (List Nat)) (node : Node) : Option (List (List Nat)) :=
  (List.range' node.startLine (node.endLine + 1 - node.startLine)).foldlM
    (fun ls line =>
      if line - 1 < ls.length then
        some (ls.set (line - 1) ((ls.getD (line - 1) []).concat node.nid))
      else none)
    lines

/-- The `while queue` loop of `Line2Nodes.__init__` (lines 121-127):
`queue.pop()` takes the last element and the node's children are pushed.
The summed `nsize` of the queue members bounds the iteration count; the
wrapper passes `nsize root`, which is sufficient. -/
def l2n_loop : Nat → List (List Nat) → List Node → Option (List (List Nat))
  | 0, lines, queue => if queue.isEmpty then some lines else none
  | fuel + 1, lines, queue =>
    match queue.getLast? with
    | none => some lines
    | some node =>
      let rest := queue.dropLast
      if 0 < node.startLine then
        match lines_add lines node with
        | none => none
        | some lines2 => l2n_loop fuel lines2 (rest ++ node.children)
      else l2n_loop fuel lines (rest ++ node.children)

/-- Line2Nodes construction: `Line2Nodes(nlines, root)._lines`, with `none`
for the IndexError of out-of-range node positions. -/
def line2nodes_init (nlines : Nat) (root : Node) : Option (List (List Nat)) :=
  l2n_loop (nsize root) (List.replicate nlines []) [root]

/-- The tuple branch of `Line2Nodes.__getitem__` (lines 130-139): nodes on
the lines of the half-open interval `[start, end)`, with the nodes also on
line `start - 1` and the nodes also on line `end` removed. `none` models
the IndexError of an out-of-range line index. -/
def line2nodes_interval (lines : List (List Nat)) (start endd : Nat) : Option (List Nat) :=
  match lines.get? start with
  | none => none
  | some l0 =>
    let nodes := set_of l0
    let nodes :=
      if 0 < start then set_diff nodes (set_of (lines.getD (start - 1) [])) else nodes
    match (List.range' (start + 1) (endd - (start + 1))).foldlM
        (fun acc l =>
          match lines.get? l with
          | none => none
          | some ll => some (set_update acc ll))
        nodes with
    | none => none
    | some nodes2 =>
      some (if endd < lines.length then set_diff nodes2 (set_of (lines.getD endd [])) else nodes2)

/-! ## adjust_seqdiff (treediff.py lines 143-205) -/

/-- One entry of the `difflib.Differ.compare` output: the Python string
`line` is `mark + " " + text`, so `line[0]` is `mark` and `line[2:]` is
`text`. -/
structure DLine where
  mark : Char
  text : String
deriving DecidableEq, Repr

/-- A raw interval of the first loop of `adjust_seqdiff`: the collected
added and removed diff lines and the four line cursors
`(start_before, end_before, start_after, end_after)`. -/
structure RawIv where
  iadd : List DLine
  irm : List DLine
  sb : Nat
  eb : Nat
  sa : Nat
  ea : Nat
deriving DecidableEq, Repr

/-- An adjusted interval `(start_before, end_before, start_after,
end_after)` as emitted by `adjust_seqdiff`. -/
structure Iv4 where
  sb : Nat
  eb : Nat
  sa : Nat
  ea : Nat
deriving DecidableEq, Repr

/-- Loop state of the first loop of `adjust_seqdiff` (lines 145-151):
line cursors, pending add/remove runs and the `-1`-initialised interval
start markers. -/
structure RawSt where
  lb : Nat
  la : Nat
  iadd : List DLine
  irm : List DLine
  isb : Int
  isa : Int
deriving Repr

/-- Initial state of the first loop of `adjust_seqdiff`. -/
def init_state : RawSt := ⟨0, 0, [], [], -1, -1⟩

/-- One iteration of the first loop of `adjust_seqdiff` (lines 152-175).
Note that an interval is recorded only in the branch for a line that is
neither `+` nor `-`, and that `interval_start_before`/`after` are not reset
after a record (faithful to the source). -/
def raw_step (st : RawSt × List RawIv) (e : DLine) : RawSt × List RawIv :=
  if e.mark = '+' then
    ({ st.1 with
        isa := if st.1.iadd.isEmpty then (st.1.la : Int) else st.1.isa,
        la := st.1.la + 1,
        iadd := st.1.iadd ++ [e] }, st.2)
  else if e.mark = '-' then
    ({ st.1 with
        isb := if st.1.irm.isEmpty then (st.1.lb : Int) else st.1.isb,
        lb := st.1.lb + 1,
        irm := st.1.irm ++ [e] }, st.2)
  else
    if st.1.iadd.isEmpty ∧ st.1.irm.isEmpty then
      ({ st.1 with lb := st.1.lb + 1, la := st.1.la + 1 }, st.2)
    else
      ({ st.1 with iadd := [], irm := [], lb := st.1.lb + 1, la := st.1.la + 1 },
       st.2 ++ [⟨st.1.iadd, st.1.irm,
                 if st.1.isb > -1 then st.1.isb.toNat else st.1.lb, st.1.lb,
                 if st.1.isa > -1 then st.1.isa.toNat else st.1.la, st.1.la⟩])

/-- The raw intervals produced by the first loop of `adjust_seqdiff`; a run
still pending when the diff ends is not recorded, as in the source. -/
def raw_intervals (seqdiff : List DLine) : List RawIv :=
  (seqdiff.foldl raw_step (init_state, [])).2

/-- The `while neighbors < len(interval_add) and src_after[...] == ...`
scan (lines 182-185): longest prefix of the added lines that equals the
after-side source lines from `end_after` on; `none` models the IndexError
of reading past the end of `src_after`. -/
def neighbors_from : List DLine → List String → Nat → Nat → Option Nat
  | [], _, _, k => some k
  | e :: rest, src_after, ea, k =>
    match src_after.get? (ea + k) with
    | none => none
    | some s => if s = e.text then neighbors_from rest src_after ea (k + 1) else some k

/-- Neighbor count of a raw interval. -/
def neighbors_count (iadd : List DLine) (src_after : List String) (ea : Nat) : Option Nat :=
  neighbors_from iadd src_after ea 0

/-- Plain union of the per-line node sets over `[a, b)` as computed by the
`ls1.update(map(id, line2nodes[l]))` loops (lines 189-194): integer
indexing into `_lines`, no boundary-line removal. -/
def union_lines (lines : List (List Nat)) (a b : Nat) : Option (List Nat) :=
  (List.range' a (b - a)).foldlM
    (fun acc l =>
      match lines.get? l with
      | none => none
      | some ll => some (set_update acc ll))
    []

/-- The body of the second loop of `adjust_seqdiff` (lines 177-204) for one
raw interval: emit it unchanged, or split it into the pure-deletion part
and the shifted addition window. -/
def process_interval (iv : RawIv) (src_after : List String) (lines : List (List Nat)) :
    Option (List Iv4) :=
  if iv.iadd.length ≤ 1 ∧ iv.irm.length ≤ 1 then some [⟨iv.sb, iv.eb, iv.sa, iv.ea⟩]
  else
    match neighbors_count iv.iadd src_after iv.ea with
    | none => none
    | some n =>
      if n = 0 then some [⟨iv.sb, iv.eb, iv.sa, iv.ea⟩]
      else
        match union_lines lines iv.sa iv.ea with
        | none => none
        | some ls1 =>
          match union_lines lines (iv.sa + n) (iv.ea + n) with
          | none => none
          | some ls2 =>
            if ls1.length = ls2.length then some [⟨iv.sb, iv.eb, iv.sa, iv.ea⟩]
            else
              some ((if 0 < iv.eb - iv.sb then [⟨iv.sb, iv.eb, iv.sa, iv.sa⟩] else []) ++
                [⟨iv.eb + n, iv.eb + n, iv.sa + n, iv.ea + n⟩])

/-- adjust_seqdiff (lines 143-205): group the diff into raw intervals, then
adjust each; `none` models an IndexError in the adjustment stage. -/
def adjust_seqdiff (seqdiff : List DLine) (src_after : List String)
    (line2nodes : List (List Nat)) : Option (List Iv4) :=
  (raw_intervals seqdiff).foldlM
    (fun acc iv =>
      match process_interval iv src_after line2nodes with
      | none => none
      | some out => some (acc ++ out))
    []

/-! ## treediff (treediff.py lines 208-303) -/

/-- Python `str.splitlines(True)` for newline-terminated text: split after
every `\n`, keeping the line ends (the exotic unicode line boundaries of
the real method are not used by the tool's inputs). -/
def splitlines_aux : List Char → List Char → List String
  | [], acc => if acc.isEmpty then [] else [⟨acc.reverse⟩]
  | c :: rest, acc =>
    if c = '\n' then ⟨(c :: acc).reverse⟩ :: splitlines_aux rest []
    else splitlines_aux rest (c :: acc)

/-- Python `src.splitlines(True)`. -/
def splitlines (s : String) : List String := splitlines_aux s.data []

/-- An emitted edit operation; nodes are carried by id (`dereference_idptr`
is the inverse of `id(node)`). -/
inductive Op where
  | add (k : Nat)
  | delete (k : Nat)
  | modify (k1 k2 : Nat)
deriving DecidableEq, Repr

/-- Inner `filter_changed` of `treediff` (lines 224-228): union of the
interval lookups `line2node[lr]` over the adjusted line ranges of one side;
`none` models an IndexError inside `Line2Nodes.__getitem__`. -/
def filter_changed (lines_ranges : List (Nat × Nat)) (line2node : List (List Nat)) :
    Option (List Nat) :=
  lines_ranges.foldlM
    (fun acc lr =>
      match line2nodes_interval line2node lr.1 lr.2 with
      | none => none
      | some s => some (set_update acc s))
    []

/-- defaultdict(bytes) update `supermap[k] += h`: append to the entry of
`k`, inserting an empty default first if absent (insertion order kept). -/
def dd_update (sm : List (Nat × List Nat)) (k : Nat) (h : List Nat) : List (Nat × List Nat) :=
  if (sm.lookup k).isSome then sm.map (fun p => if p.1 = k then (p.1, p.2 ++ h) else p)
  else sm.concat (k, h)

/-- The `byte_matches` table of one hash round (lines 261-265):
`byte_matches[b]` lists the after-side indices `j` whose fingerprint
contains byte `b` (set semantics on the fingerprint). -/
def byte_matches (map2 : List (Nat × List Nat)) (b : Nat) : List Nat :=
  (map2.enum.filter (fun p => p.2.2.contains b)).map Prod.fst

/-- The `candidates` vector for one before-side fingerprint `h` (lines
268-271): start from zeros and subtract 1 at position `j` for every byte
of `h` (with multiplicity) and every `j` in `byte_matches[b]`. -/
def candidates (h : List Nat) (map2 : List (Nat × List Nat)) : List Int :=
  h.foldl
    (fun cand b =>
      (byte_matches map2 b).foldl (fun cand j => cand.set j (cand.getD j 0 - 1)) cand)
    (List.replicate map2.length 0)

/-- Initial distance matrix (lines 257-260): all cells `2*HASH_SIZE*S`,
with the two rectangular real blocks set to `HASH_SIZE*S`. -/
def dists_init (n1 S : Nat) (i j : Nat) : ℚ :=
  if (i < n1 ∧ n1 ≤ j) ∨ (j < n1 ∧ n1 ≤ i) then (HASH_SIZE : ℚ) * S
  else 2 * HASH_SIZE * S

/-- Final distance matrix after the per-round accumulations
`dists[i, len(map1):] += candidates` and `dists[len(map1):, i] +=
candidates` (lines 272-273), written as a function of the cell. -/
def dists_final (n1 S : Nat) (rounds : List (List (Nat × List Nat) × List (Nat × List Nat)))
    (i j : Nat) : ℚ :=
  dists_init n1 S i j +
    (rounds.map (fun r =>
      (if i < n1 ∧ n1 ≤ j then
        (((candidates ((r.1.getD i (0, [])).2) r.2).getD (j - n1) 0 : Int) : ℚ) else 0) +
      (if j < n1 ∧ n1 ≤ i then
        (((candidates ((r.1.getD j (0, [])).2) r.2).getD (i - n1) 0 : Int) : ℚ) else 0))).sum

/-! ## The script compiler (treediff.py lines 281-303) -/

/-- Python `enumerate(row_ind[:len(map1)])`: the assignment pairs
`(i, row_ind[i])` for the before-side rows. -/
def enum_pairs (n1 : Nat) (row_ind : List Nat) : List (Nat × Nat) :=
  (row_ind.take n1).enum

/-- Membership test of the `deleted` set (lines 282-283): matched to a
dummy column, or distance above `threshold * nseeds`. -/
def deletedB (n1 : Nat) (dists : Nat → Nat → ℚ) (threshold : ℚ) (nseeds : Nat)
    (p : Nat × Nat) : Bool :=
  decide (p.2 < n1) || decide (threshold * nseeds < dists p.1 p.2)

/-- Membership test of the `exact` set (lines 284-285): matched to a real
column with equal supersketches. -/
def exactB (n1 : Nat) (ss1 ss2 : Nat → List Nat) (p : Nat × Nat) : Bool :=
  decide (n1 ≤ p.2) && decide (ss1 p.1 = ss2 (p.2 - n1))

/-- The `deleted` set of assignment pairs. -/
def deleted_pairs (n1 : Nat) (dists : Nat → Nat → ℚ) (row_ind : List Nat)
    (threshold : ℚ) (nseeds : Nat) : List (Nat × Nat) :=
  (enum_pairs n1 row_ind).filter (deletedB n1 dists threshold nseeds)

/-- The `exact` set of assignment pairs. -/
def exact_pairs (n1 : Nat) (dists : Nat → Nat → ℚ) (row_ind : List Nat)
    (threshold : ℚ) (nseeds : Nat) (ss1 ss2 : Nat → List Nat) : List (Nat × Nat) :=
  (enum_pairs n1 row_ind).filter (exactB n1 ss1 ss2)

/-- The fuzzy-match pairs `set(enumerate(row_ind[:n1])) - deleted - exact`
(line 301). -/
def modify_pairs (n1 : Nat) (dists : Nat → Nat → ℚ) (row_ind : List Nat)
    (threshold : ℚ) (nseeds : Nat) (ss1 ss2 : Nat → List Nat) : List (Nat × Nat) :=
  (enum_pairs n1 row_ind).filter
    (fun p => !deletedB n1 dists threshold nseeds p && !exactB n1 ss1 ss2 p)

/-- `mapped2` (line 286): the columns used by the non-deleted pairs. -/
def mapped2 (n1 : Nat) (dists : Nat → Nat → ℚ) (row_ind : List Nat)
    (threshold : ℚ) (nseeds : Nat) : List Nat :=
  ((enum_pairs n1 row_ind).filter (fun p => !deletedB n1 dists threshold nseeds p)).map
    Prod.snd

/-- `added` (line 287): the real after-side columns not used by any
non-deleted pair. -/
def added_cols (n1 : Nat) (dists : Nat → Nat → ℚ) (row_ind : List Nat)
    (threshold : ℚ) (nseeds : Nat) : List Nat :=
  (List.range' n1 (row_ind.length - n1)).filter
    (fun j => !(mapped2 n1 dists row_ind threshold nseeds).contains j)

/-- The emitted script (lines 294-302): delete operations, then add
operations, then modify operations. The Python loops iterate sets of small
index tuples; the model fixes the filtered-list order. -/
def script_ops (n1 : Nat) (dists : Nat → Nat → ℚ) (row_ind : List Nat)
    (threshold : ℚ) (nseeds : Nat) (ss1 ss2 : Nat → List Nat) (seq1 seq2 : List Nat) :
    List Op :=
  (deleted_pairs n1 dists row_ind threshold nseeds).map (fun p => Op.delete (seq1.getD p.1 0))
    ++ (added_cols n1 dists row_ind threshold nseeds).map (fun j => Op.add (seq2.getD (j - n1) 0))
    ++ (modify_pairs n1 dists row_ind threshold nseeds ss1 ss2).map
      (fun p => Op.modify (seq1.getD p.1 0) (seq2.getD (p.2 - n1) 0))

/-- treediff (lines 208-303). The text differ (`difflib.Differ.compare` on
the two line lists) and the assignment solver (`lapjv.lapjv`, returning
`row_ind` for a matrix of the given side length) are external collaborators
passed as parameters. `none` models an uncaught exception anywhere in the
pipeline; in particular `nseeds = 0` leaves Python's `map1` unbound and
raises NameError at line 275. -/
def treediff (differ : List String → List String → List DLine)
    (lapjv : (Nat → Nat → ℚ) → Nat → List Nat)
    (src1 : String) (uast1 : Node) (src2 : String) (uast2 : Node) (nseeds : Nat) :
    Option (List Op) :=
  let lines1 := splitlines src1
  let lines2 := splitlines src2
  match line2nodes_init lines1.length uast1 with
  | none => none
  | some line2nodes_before =>
  match line2nodes_init lines2.length uast2 with
  | none => none
  | some line2nodes_after =>
  match adjust_seqdiff (differ lines1 lines2) lines2 line2nodes_after with
  | none => none
  | some adjusted_diff =>
  let lines_before := adjusted_diff.map (fun i => (i.sb, i.eb))
  let lines_after := adjusted_diff.map (fun i => (i.sa, i.ea))
  match filter_changed lines_before line2nodes_before with
  | none => none
  | some white_list1 =>
  match filter_changed lines_after line2nodes_after with
  | none => none
  | some white_list2 =>
  if white_list1.isEmpty then some (white_list2.map Op.add)
  else if white_list2.isEmpty then some (white_list1.map Op.delete)
  else if nseeds = 0 then none
  else
  match (List.range nseeds).mapM (fun seed =>
      match hash_node uast1 seed white_list1 with
      | none => none
      | some r1 =>
        match hash_node uast2 seed white_list2 with
        | none => none
        | some r2 => some (r1.1, r2.1)) with
  | none => none
  | some rounds =>
  let n1 := (rounds.headD ([], [])).1.length
  let n2 := (rounds.headD ([], [])).2.length
  let supermap1 := rounds.foldl
    (fun sm r => r.1.foldl (fun sm p => dd_update sm p.1 p.2) sm) []
  let supermap2 := rounds.foldl
    (fun sm r => r.2.foldl (fun sm p => dd_update sm p.1 p.2) sm) []
  let seq1 := (rounds.getLastD ([], [])).1.map Prod.fst
  let seq2 := (rounds.getLastD ([], [])).2.map Prod.fst
  let dists := dists_final n1 nseeds rounds
  let row_ind := lapjv dists (n1 + n2)
  let ss1 := fun i => (supermap1.lookup (seq1.getD i 0)).getD []
  let ss2 := fun j => (supermap2.lookup (seq2.getD j 0)).getD []
  some (script_ops n1 dists row_ind ((HASH_SIZE : ℚ) / 2) nseeds ss1 ss2 seq1 seq2)

/-! ## Spec-side reference definitions

Definitions in this section follow the wording of the design document (not
the source); they exist to be compared with the behaviour of the embedded
code. -/

/-- Spec-side count of the maximal runs of `+`/`-` entries that are closed
by a later non-run entry; the Boolean argument says whether a run is
currently open. -/
def closed_runs : Bool → List DLine → Nat
  | _, [] => 0
  | b, e :: rest =>
    if e.mark = '+' ∨ e.mark = '-' then closed_runs true rest
    else (if b then 1 else 0) + closed_runs false rest

/-- Spec-side count of all maximal runs of `+`/`-` entries, including a run
that ends the diff sequence ("group each run of `+`/`-` into one raw
interval"). -/
def all_runs : Bool → List DLine → Nat
  | b, [] => if b then 1 else 0
  | b, e :: rest =>
    if e.mark = '+' ∨ e.mark = '-' then all_runs true rest
    else (if b then 1 else 0) + all_runs false rest

/-- Whether the first loop of `adjust_seqdiff` has an open run pending in
state `st`. -/
def pendingB (st : RawSt) : Bool := !(st.iadd.isEmpty && st.irm.isEmpty)

/-! ## Helper lemmas -/

theorem append_one_isEmpty (l : List DLine) (e : DLine) : (l ++ [e]).isEmpty = false := by
  cases l <;> rfl

theorem raw_fold_length (sd : List DLine) : ∀ (st : RawSt) (acc : List RawIv),
    ((sd.foldl raw_step (st, acc)).2).length = acc.length + closed_runs (pendingB st) sd := by
  induction sd with
  | nil => intro st acc; simp [closed_runs]
  | cons e rest ih =>
    intro st acc
    by_cases h1 : e.mark = '+'
    · have hstep : raw_step (st, acc) e =
          ({ st with isa := if st.iadd.isEmpty then (st.la : Int) else st.isa,
                     la := st.la + 1, iadd := st.iadd ++ [e] }, acc) := by
        simp [raw_step, h1]
      rw [List.foldl_cons, hstep, ih]
      simp [closed_runs, h1, pendingB, append_one_isEmpty]
    · by_cases h2 : e.mark = '-'
      · have hstep : raw_step (st, acc) e =
            ({ st with isb := if st.irm.isEmpty then (st.lb : Int) else st.isb,
                       lb := st.lb + 1, irm := st.irm ++ [e] }, acc) := by
          simp [raw_step, h1, h2]
        rw [List.foldl_cons, hstep, ih]
        simp [closed_runs, h1, h2, pendingB, append_one_isEmpty]
      · by_cases h3 : st.iadd.isEmpty = true ∧ st.irm.isEmpty = true
        · have hstep : raw_step (st, acc) e =
              ({ st with lb := st.lb + 1, la := st.la + 1 }, acc) := by
            simp [raw_step, h1, h2, h3.1, h3.2]
          rw [List.foldl_cons, hstep, ih]
          simp [closed_runs, h1, h2, pendingB, h3.1, h3.2]
        · have hpend : pendingB st = true := by
            simp only [pendingB, Bool.not_eq_true']
            cases ha : st.iadd.isEmpty <;> cases hb : st.irm.isEmpty <;> simp_all
          have hstep : raw_step (st, acc) e =
              ({ st with iadd := [], irm := [], lb := st.lb + 1, la := st.la + 1 },
               acc ++ [⟨st.iadd, st.irm,
                        if st.isb > -1 then st.isb.toNat else st.lb, st.lb,
                        if st.isa > -1 then st.isa.toNat else st.la, st.la⟩]) := by
            simp only [raw_step]
            rw [if_neg (by simp [h1]), if_neg (by simp [h2]), if_neg h3]
          rw [List.foldl_cons, hstep, ih, hpend]
          simp [closed_runs, h1, h2, pendingB]
          omega

/-! ## C4: raw interval formation -/

/-- C4 (amended): the first loop of `adjust_seqdiff` records exactly one
raw interval per maximal run of consecutive `+`/`-` entries that is
followed by a later non-`+`/`-` entry; a run still open when the diff
sequence ends is discarded and contributes no interval. -/
theorem raw_intervals_one_per_closed_run (seqdiff : List DLine) :
    (raw_intervals seqdiff).length = closed_runs false seqdiff := by
  have h := raw_fold_length seqdiff init_state []
  simpa [raw_intervals, pendingB, init_state] using h

/-- C4 (counterexample): a diff sequence that ends in a `+` run has one
maximal run, yet `adjust_seqdiff` emits nothing for it — the trailing run
does not contribute an interval, contradicting the claim. -/
theorem trailing_run_dropped :
    adjust_seqdiff [⟨'+', "x"⟩] [] [] = some [] ∧ all_runs false [⟨'+', "x"⟩] = 1 := by
  exact ⟨rfl, rfl⟩

/-! ## C2 and C6: hash_node failure modes -/

/-- C2: `hash_node` is not total. On a whitelisted positioned node whose
only child has no position, the only positive-weight entry (the node's own
sketch, sitting last in `inner_hashes`) is paired with nothing by the
`zip(inner_hashes, sample_sizes)` misalignment, the collected `choices`
list stays empty, and `numpy.hstack(choices)` raises ValueError — modelled
by the `none` result. -/
theorem hash_node_raises_on_positionless_child :
    hash_node ⟨1, "", [], 1, 1, [⟨2, "", [], 0, 0, []⟩]⟩ 0 [1] = none := by
  decide

/-- C6: a recorded fingerprint of length 8 ≠ HASH_SIZE. For a whitelisted
node with a whitelisted leaf child and a positionless child, the
`sample_sizes` list `[8, 8]` (built from the weight-filtered entries) is
zipped positionally against the unfiltered `inner_hashes`, so the zero
weight child absorbs one sample budget and the own-sketch entry is
truncated away: only 8 bytes are recorded for node 1. -/
theorem hash_node_records_short_fingerprint :
    (hash_node ⟨1, "t", [], 1, 1, [⟨2, "a", [], 1, 1, []⟩, ⟨3, "c", [], 0, 0, []⟩]⟩ 0
        [1, 2]).map (fun r => (r.1.lookup 1).map List.length) = some (some 8) := by
  decide

/-! ## C3: threshold monotonicity -/

/-- C3 (amended): with the distance matrix and assignment fixed, raising
the threshold never increases the number of delete operations and never
decreases the number of modify operations (the deletion test
`dists[i, j] > threshold * nseeds` only gets harder). -/
theorem threshold_monotonicity_amended (n1 nseeds : Nat) (dists : Nat → Nat → ℚ)
    (row_ind : List Nat) (ss1 ss2 : Nat → List Nat) (t1 t2 : ℚ) (h : t1 ≤ t2) :
    (deleted_pairs n1 dists row_ind t2 nseeds).length ≤
      (deleted_pairs n1 dists row_ind t1 nseeds).length ∧
    (modify_pairs n1 dists row_ind t1 nseeds ss1 ss2).length ≤
      (modify_pairs n1 dists row_ind t2 nseeds ss1 ss2).length := by
  have key : ∀ p : Nat × Nat,
      deletedB n1 dists t2 nseeds p = true → deletedB n1 dists t1 nseeds p = true := by
    intro p hp
    simp only [deletedB, Bool.or_eq_true, decide_eq_true_eq] at hp ⊢
    rcases hp with hp | hp
    · exact Or.inl hp
    · exact Or.inr (lt_of_le_of_lt (mul_le_mul_of_nonneg_right h (Nat.cast_nonneg nseeds)) hp)
  constructor
  · exact (List.monotone_filter_right _ key).length_le
  · refine (List.monotone_filter_right _ ?_).length_le
    intro p hp
    simp only [Bool.and_eq_true, Bool.not_eq_true'] at hp ⊢
    refine ⟨?_, hp.2⟩
    by_contra hne
    have h2 : deletedB n1 dists t2 nseeds p = true := by
      cases hb : deletedB n1 dists t2 nseeds p
      · exact absurd hb hne
      · rfl
    rw [key p h2] at hp
    exact Bool.noConfusion hp.1

/-- C3 (witness): the amended monotonicity applied at a concrete instance
with thresholds 8 and 24. -/
theorem threshold_monotonicity_witness :
    (8 : ℚ) ≤ 24 ∧
    ((deleted_pairs 1 (fun _ _ => (10 : ℚ)) [1, 0] 24 1).length ≤
        (deleted_pairs 1 (fun _ _ => (10 : ℚ)) [1, 0] 8 1).length ∧
      (modify_pairs 1 (fun _ _ => (10 : ℚ)) [1, 0] 8 1 (fun _ => [0]) (fun _ => [1])).length ≤
        (modify_pairs 1 (fun _ _ => (10 : ℚ)) [1, 0] 24 1 (fun _ => [0])
          (fun _ => [1])).length) :=
  ⟨by norm_num,
   threshold_monotonicity_amended 1 1 (fun _ _ => (10 : ℚ)) [1, 0]
     (fun _ => [0]) (fun _ => [1]) 8 24 (by norm_num)⟩

/-- C3 (counterexample): raising the threshold from 8 to 24 strictly
decreases the delete count (1 to 0) and strictly increases the modify count
(0 to 1) on a one-pair instance with distance 10, refuting the claimed
directions. -/
theorem threshold_monotonicity_counterexample :
    (deleted_pairs 1 (fun _ _ => (10 : ℚ)) [1, 0] 24 1).length <
      (deleted_pairs 1 (fun _ _ => (10 : ℚ)) [1, 0] 8 1).length ∧
    (modify_pairs 1 (fun _ _ => (10 : ℚ)) [1, 0] 8 1 (fun _ => [0]) (fun _ => [1])).length <
      (modify_pairs 1 (fun _ _ => (10 : ℚ)) [1, 0] 24 1 (fun _ => [0])
        (fun _ => [1])).length := by
  have he : enum_pairs 1 [1, 0] = [(0, 1)] := rfl
  constructor
  · simp only [deleted_pairs, he, List.filter, deletedB]
    norm_num
  · simp only [modify_pairs, he, List.filter, deletedB, exactB]
    norm_num

/-! ## C5: the vacuity check of adjust_seqdiff -/

/-- C5 (amended): for a raw interval past the small-interval check and with
a positive neighbor count, `adjust_seqdiff` emits the interval unchanged
exactly when the plain per-line unions of node sets over
`[start_after, end_after)` and the shifted window have equal cardinality;
`nodes_in_open_interval` (the tuple branch of `Line2Nodes.__getitem__`)
plays no part in the decision. -/
theorem vacuity_uses_plain_line_union (iv : RawIv) (src_after : List String)
    (lines : List (List Nat)) (n : Nat) (u1 u2 : List Nat)
    (hlen : ¬(iv.iadd.length ≤ 1 ∧ iv.irm.length ≤ 1))
    (hn : neighbors_count iv.iadd src_after iv.ea = some n) (hn0 : 0 < n)
    (h1 : union_lines lines iv.sa iv.ea = some u1)
    (h2 : union_lines lines (iv.sa + n) (iv.ea + n) = some u2) :
    process_interval iv src_after lines = some [⟨iv.sb, iv.eb, iv.sa, iv.ea⟩] ↔
      u1.length = u2.length := by
  unfold process_interval
  rw [if_neg hlen]
  simp only [hn, h1, h2]
  rw [if_neg (by omega : ¬ n = 0)]
  constructor
  · intro hres
    by_contra hne
    rw [if_neg hne] at hres
    by_cases hdel : 0 < iv.eb - iv.sb
    · rw [if_pos hdel] at hres
      have := congrArg (fun l => (Option.getD l []).length) hres
      simp at this
    · rw [if_neg hdel] at hres
      simp only [List.nil_append, Option.some.injEq, List.cons.injEq, and_true,
        Iv4.mk.injEq] at hres
      omega
  · intro h
    rw [if_pos h]

/-- C5 (witness): the amended characterisation applied to a concrete
interval with neighbor count 1 and plain-union cardinalities 2 and 1. -/
theorem vacuity_witness :
    neighbors_count [⟨'+', "x"⟩, ⟨'+', "x"⟩] ["a", "x", "x", "x", "q"] 3 = some 1 ∧
    (process_interval ⟨[⟨'+', "x"⟩, ⟨'+', "x"⟩], [], 1, 1, 1, 3⟩ ["a", "x", "x", "x", "q"]
        [[], [7], [8], [8], []] = some [⟨1, 1, 1, 3⟩] ↔
      ([7, 8] : List Nat).length = ([8] : List Nat).length) :=
  ⟨rfl,
   vacuity_uses_plain_line_union ⟨[⟨'+', "x"⟩, ⟨'+', "x"⟩], [], 1, 1, 1, 3⟩
     ["a", "x", "x", "x", "q"] [[], [7], [8], [8], []] 1 [7, 8] [8]
     (by decide) rfl (by decide) rfl rfl⟩

/-- C5 (counterexample): on this input the `nodes_in_open_interval`
cardinalities of the two windows are equal (both 1), so the claim predicts
the unchanged interval `(1, 1, 1, 3)`; the code instead compares plain
per-line unions (cardinalities 2 and 1) and emits the shifted interval
`(2, 2, 2, 4)`. -/
theorem vacuity_check_counterexample :
    (line2nodes_interval [[], [7], [8], [8], []] 1 3).map List.length = some 1 ∧
    (line2nodes_interval [[], [7], [8], [8], []] 2 4).map List.length = some 1 ∧
    raw_intervals [⟨' ', "a"⟩, ⟨'+', "x"⟩, ⟨'+', "x"⟩, ⟨' ', "b"⟩] =
      [⟨[⟨'+', "x"⟩, ⟨'+', "x"⟩], [], 1, 1, 1, 3⟩] ∧
    adjust_seqdiff [⟨' ', "a"⟩, ⟨'+', "x"⟩, ⟨'+', "x"⟩, ⟨' ', "b"⟩]
      ["a", "x", "x", "x", "q"] [[], [7], [8], [8], []] ≠ some [⟨1, 1, 1, 3⟩] ∧
    adjust_seqdiff [⟨' ', "a"⟩, ⟨'+', "x"⟩, ⟨'+', "x"⟩, ⟨' ', "b"⟩]
      ["a", "x", "x", "x", "q"] [[], [7], [8], [8], []] = some [⟨2, 2, 2, 4⟩] := by
  refine ⟨rfl, rfl, rfl, by decide, rfl⟩

/-! ## C10: the Line2Nodes construction precondition -/

/-- A node whose recorded line range overflows a line table of length `L`:
positioned, non-empty range, end line beyond `L`. -/
def bad_node (L : Nat) (n : Node) : Prop :=
  0 < n.startLine ∧ n.startLine ≤ n.endLine ∧ L < n.endLine

theorem nsize_eq (n : Node) : nsize n = 1 + nsizeL n.children := by
  cases n; rfl

theorem nsize_pos (n : Node) : 0 < nsize n := by
  rw [nsize_eq]; omega

theorem nsizeL_append (l1 l2 : List Node) : nsizeL (l1 ++ l2) = nsizeL l1 + nsizeL l2 := by
  induction l1 with
  | nil => simp [nsizeL]
  | cons c cs ih => simp [nsizeL, ih]; omega

theorem lines_fold_length (nid : Nat) : ∀ (r : List Nat) (ls ls2 : List (List Nat)),
    r.foldlM (fun ls line =>
      if line - 1 < ls.length then
        some (ls.set (line - 1) ((ls.getD (line - 1) []).concat nid))
      else none) ls = some ls2 → ls2.length = ls.length := by
  intro r
  induction r with
  | nil =>
    intro ls ls2 h
    simp only [List.foldlM_nil, pure, Option.some.injEq] at h
    rw [← h]
  | cons a r ih =>
    intro ls ls2 h
    rw [List.foldlM_cons] at h
    by_cases ha : a - 1 < ls.length
    · rw [if_pos ha] at h
      have := ih _ _ h
      simpa using this
    · rw [if_neg ha] at h
      simp at h

theorem lines_fold_none_iff (nid : Nat) : ∀ (r : List Nat) (ls : List (List Nat)),
    r.foldlM (fun ls line =>
      if line - 1 < ls.length then
        some (ls.set (line - 1) ((ls.getD (line - 1) []).concat nid))
      else none) ls = none ↔ ∃ line ∈ r, ls.length ≤ line - 1 := by
  intro r
  induction r with
  | nil => intro ls; simp
  | cons a r ih =>
    intro ls
    rw [List.foldlM_cons]
    by_cases ha : a - 1 < ls.length
    · rw [if_pos ha]
      have hlen : (ls.set (a - 1) ((ls.getD (a - 1) []).concat nid)).length = ls.length := by
        simp
      rw [show (some (ls.set (a - 1) ((ls.getD (a - 1) []).concat nid)) >>= fun b =>
          List.foldlM _ b r) = List.foldlM _ (ls.set (a - 1)
          ((ls.getD (a - 1) []).concat nid)) r from rfl]
      rw [ih]
      rw [hlen]
      constructor
      · rintro ⟨line, hl, hb⟩
        exact ⟨line, List.mem_cons_of_mem a hl, hb⟩
      · rintro ⟨line, hl, hb⟩
        rcases List.mem_cons.mp hl with rfl | hl
        · omega
        · exact ⟨line, hl, hb⟩
    · rw [if_neg ha]
      constructor
      · intro _
        exact ⟨a, List.mem_cons_self a r, by omega⟩
      · intro _
        rfl

theorem lines_add_none_iff (lines : List (List Nat)) (node : Node)
    (h0 : 0 < node.startLine) :
    lines_add lines node = none ↔
      node.startLine ≤ node.endLine ∧ lines.length < node.endLine := by
  unfold lines_add
  rw [lines_fold_none_iff]
  constructor
  · rintro ⟨line, hl, hb⟩
    rw [List.mem_range'_1] at hl
    omega
  · rintro ⟨h1, h2⟩
    exact ⟨node.endLine, by rw [List.mem_range'_1]; omega, by omega⟩

theorem lines_add_length {lines lines2 : List (List Nat)} {node : Node}
    (h : lines_add lines node = some lines2) : lines2.length = lines.length :=
  lines_fold_length node.nid _ lines lines2 h

theorem bad_exists_step (L : Nat) (node : Node) (rest : List Node)
    (hnb : ¬ bad_node L node) :
    ((∃ n r, r ∈ rest ++ [node] ∧ InTree n r ∧ bad_node L n) ↔
      (∃ n r, r ∈ rest ++ node.children ∧ InTree n r ∧ bad_node L n)) := by
  constructor
  · rintro ⟨n, r, hr, ht, hb⟩
    rcases List.mem_append.mp hr with hr | hr
    · exact ⟨n, r, List.mem_append.mpr (Or.inl hr), ht, hb⟩
    · have hrn : r = node := by simpa using hr
      subst hrn
      cases ht with
      | here => exact absurd hb hnb
      | via hc ht2 => exact ⟨n, _, List.mem_append.mpr (Or.inr hc), ht2, hb⟩
  · rintro ⟨n, r, hr, ht, hb⟩
    rcases List.mem_append.mp hr with hr | hr
    · exact ⟨n, r, List.mem_append.mpr (Or.inl hr), ht, hb⟩
    · exact ⟨n, node, List.mem_append.mpr (Or.inr (by simp)), InTree.via hr ht, hb⟩

theorem l2n_loop_none_iff : ∀ (fuel : Nat) (lines : List (List Nat)) (queue : List Node),
    nsizeL queue ≤ fuel →
    (l2n_loop fuel lines queue = none ↔
      ∃ n r, r ∈ queue ∧ InTree n r ∧ bad_node lines.length n) := by
  intro fuel
  induction fuel with
  | zero =>
    intro lines queue hq
    match queue with
    | [] => simp [l2n_loop]
    | c :: rest =>
      exfalso
      have := nsize_pos c
      simp [nsizeL] at hq
      omega
  | succ fuel ih =>
    intro lines queue hq
    match hlast : queue.getLast? with
    | none =>
      have hq0 : queue = [] := List.getLast?_eq_none_iff.mp hlast
      subst hq0
      simp [l2n_loop, hlast]
    | some node =>
      have hne : queue ≠ [] := by
        intro h; subst h; simp at hlast
      have hglast : queue.getLast hne = node := by
        have h3 := List.getLast?_eq_getLast queue hne
        rw [hlast] at h3
        exact (Option.some_inj.mp h3).symm
      have hdecomp : queue = queue.dropLast ++ [node] := by
        rw [← hglast]
        exact (List.dropLast_append_getLast hne).symm
      have hsize : nsizeL queue.dropLast + nsize node = nsizeL queue := by
        conv_rhs => rw [hdecomp]
        rw [nsizeL_append]
        simp [nsizeL]
      have hstep : l2n_loop (fuel + 1) lines queue =
          if 0 < node.startLine then
            match lines_add lines node with
            | none => none
            | some lines2 => l2n_loop fuel lines2 (queue.dropLast ++ node.children)
          else l2n_loop fuel lines (queue.dropLast ++ node.children) := by
        rw [l2n_loop, hlast]
      have hchild : nsizeL (queue.dropLast ++ node.children) ≤ fuel := by
        rw [nsizeL_append]
        have := nsize_eq node
        omega
      rw [hstep]
      by_cases hpos : 0 < node.startLine
      · rw [if_pos hpos]
        match hadd : lines_add lines node with
        | none =>
          have hb : bad_node lines.length node := by
            have := (lines_add_none_iff lines node hpos).mp hadd
            exact ⟨hpos, this.1, this.2⟩
          simp only [true_iff]
          exact ⟨node, node, by rw [hdecomp]; exact List.mem_append.mpr (Or.inr (by simp)),
            InTree.here node, hb⟩
        | some lines2 =>
          have hnb : ¬ bad_node lines.length node := by
            intro hb
            have : lines_add lines node = none :=
              (lines_add_none_iff lines node hpos).mpr ⟨hb.2.1, hb.2.2⟩
            rw [this] at hadd
            exact Option.noConfusion hadd
          rw [ih lines2 (queue.dropLast ++ node.children) hchild]
          rw [lines_add_length hadd]
          conv_rhs => rw [hdecomp]
          exact (bad_exists_step lines.length node queue.dropLast hnb).symm
      · rw [if_neg hpos]
        have hnb : ¬ bad_node lines.length node := fun hb => hpos hb.1
        rw [ih lines (queue.dropLast ++ node.children) hchild]
        conv_rhs => rw [hdecomp]
        exact (bad_exists_step lines.length node queue.dropLast hnb).symm

/-- C10 (amended): `Line2Nodes` construction fails (raises IndexError)
precisely when the tree contains a positioned node with a non-empty line
range whose end line exceeds `nlines`; a positioned node with
`end_position.line < start_position.line` never touches the table even
when its end line exceeds `nlines`, so the precondition must also require
`start_position.line ≤ end_position.line`. -/
theorem line2nodes_init_none_iff (nlines : Nat) (root : Node) :
    line2nodes_init nlines root = none ↔
      ∃ n, InTree n root ∧ 0 < n.startLine ∧ n.startLine ≤ n.endLine ∧
        nlines < n.endLine := by
  have h := l2n_loop_none_iff (nsize root) (List.replicate nlines ([] : List Nat)) [root]
    (by simp [nsizeL])
  rw [line2nodes_init, h]
  simp only [List.length_replicate]
  constructor
  · rintro ⟨n, r, hr, ht, hb⟩
    have : r = root := by simpa using hr
    subst this
    exact ⟨n, ht, hb.1, hb.2.1, hb.2.2⟩
  · rintro ⟨n, ht, h1, h2, h3⟩
    exact ⟨n, root, by simp, ht, ⟨h1, h2, h3⟩⟩

/-- A single positioned node whose end line (2) precedes its start line (3):
its line loop `range(3, 3)` is empty. -/
def inverted_node : Node := ⟨1, "", [], 3, 2, []⟩

/-- C10 (counterexample): `Line2Nodes(1, inverted_node)` succeeds although
the tree contains a node with `start_position.line > 0` and
`end_position.line = 2 > 1 = nlines`, so construction succeeding does not
imply the claimed precondition. -/
theorem line2nodes_precondition_counterexample :
    (line2nodes_init 1 inverted_node).isSome = true ∧
    0 < inverted_node.startLine ∧ 1 < inverted_node.endLine := by
  exact ⟨rfl, by decide, by decide⟩

/-! ## C7: the partition of before- and after-nodes

Membership of a before-side index `i` (respectively an after-side index
`k`) in the classification sets of the script compiler, phrased directly
from the set builders of lines 281-302: the pair of `i` is
`(i, row_ind[i])`, and an after-side column `n1 + k` is reached only
through the pair of its (unique, for an injective assignment) preimage. -/

/-- Before-index `i` is classified deleted (line 282-283). -/
def in_deleted (n1 : Nat) (dists : Nat → Nat → ℚ) (row_ind : List Nat) (threshold : ℚ)
    (nseeds : Nat) (i : Nat) : Prop :=
  row_ind.getD i 0 < n1 ∨ threshold * nseeds < dists i (row_ind.getD i 0)

instance in_deleted_dec (n1 : Nat) (dists : Nat → Nat → ℚ) (row_ind : List Nat)
    (threshold : ℚ) (nseeds i : Nat) :
    Decidable (in_deleted n1 dists row_ind threshold nseeds i) := by
  unfold in_deleted; infer_instance

/-- Before-index `i` is classified an exact match (lines 284-285). -/
def in_exact (n1 : Nat) (row_ind : List Nat) (ss1 ss2 : Nat → List Nat) (i : Nat) : Prop :=
  n1 ≤ row_ind.getD i 0 ∧ ss1 i = ss2 (row_ind.getD i 0 - n1)

instance in_exact_dec (n1 : Nat) (row_ind : List Nat) (ss1 ss2 : Nat → List Nat) (i : Nat) :
    Decidable (in_exact n1 row_ind ss1 ss2 i) := by
  unfold in_exact; infer_instance

/-- Before-index `i` is classified a fuzzy match (line 301). -/
def in_modify (n1 : Nat) (dists : Nat → Nat → ℚ) (row_ind : List Nat) (threshold : ℚ)
    (nseeds : Nat) (ss1 ss2 : Nat → List Nat) (i : Nat) : Prop :=
  ¬ in_deleted n1 dists row_ind threshold nseeds i ∧ ¬ in_exact n1 row_ind ss1 ss2 i

instance in_modify_dec (n1 : Nat) (dists : Nat → Nat → ℚ) (row_ind : List Nat)
    (threshold : ℚ) (nseeds : Nat) (ss1 ss2 : Nat → List Nat) (i : Nat) :
    Decidable (in_modify n1 dists row_ind threshold nseeds ss1 ss2 i) := by
  unfold in_modify; infer_instance

/-- After-index `k` is classified added (lines 286-287): its real column
`n1 + k` is not the image of any non-deleted before-index. -/
def after_in_added (n1 : Nat) (dists : Nat → Nat → ℚ) (row_ind : List Nat) (threshold : ℚ)
    (nseeds : Nat) (k : Nat) : Prop :=
  ¬ ∃ i ∈ List.range n1, row_ind.getD i 0 = n1 + k ∧
    ¬ in_deleted n1 dists row_ind threshold nseeds i

instance after_in_added_dec (n1 : Nat) (dists : Nat → Nat → ℚ) (row_ind : List Nat)
    (threshold : ℚ) (nseeds k : Nat) :
    Decidable (after_in_added n1 dists row_ind threshold nseeds k) := by
  unfold after_in_added; infer_instance

/-- After-index `k` is reached by an exact pair. -/
def after_in_exact (n1 : Nat) (row_ind : List Nat) (ss1 ss2 : Nat → List Nat) (k : Nat) :
    Prop :=
  ∃ i ∈ List.range n1, row_ind.getD i 0 = n1 + k ∧ in_exact n1 row_ind ss1 ss2 i

instance after_in_exact_dec (n1 : Nat) (row_ind : List Nat) (ss1 ss2 : Nat → List Nat)
    (k : Nat) : Decidable (after_in_exact n1 row_ind ss1 ss2 k) := by
  unfold after_in_exact; infer_instance

/-- After-index `k` is reached by a fuzzy-match pair. -/
def after_in_modify (n1 : Nat) (dists : Nat → Nat → ℚ) (row_ind : List Nat) (threshold : ℚ)
    (nseeds : Nat) (ss1 ss2 : Nat → List Nat) (k : Nat) : Prop :=
  ∃ i ∈ List.range n1, row_ind.getD i 0 = n1 + k ∧
    in_modify n1 dists row_ind threshold nseeds ss1 ss2 i

instance after_in_modify_dec (n1 : Nat) (dists : Nat → Nat → ℚ) (row_ind : List Nat)
    (threshold : ℚ) (nseeds : Nat) (ss1 ss2 : Nat → List Nat) (k : Nat) :
    Decidable (after_in_modify n1 dists row_ind threshold nseeds ss1 ss2 k) := by
  unfold after_in_modify; infer_instance

/-- Number of classification sets {deleted, exact, modify} containing the
before-index `i`. -/
def before_count (n1 : Nat) (dists : Nat → Nat → ℚ) (row_ind : List Nat) (threshold : ℚ)
    (nseeds : Nat) (ss1 ss2 : Nat → List Nat) (i : Nat) : Nat :=
  (if in_deleted n1 dists row_ind threshold nseeds i then 1 else 0) +
    (if in_exact n1 row_ind ss1 ss2 i then 1 else 0) +
    (if in_modify n1 dists row_ind threshold nseeds ss1 ss2 i then 1 else 0)

/-- Number of classification sets {added, exact, modify} containing the
after-index `k`. -/
def after_count (n1 : Nat) (dists : Nat → Nat → ℚ) (row_ind : List Nat) (threshold : ℚ)
    (nseeds : Nat) (ss1 ss2 : Nat → List Nat) (k : Nat) : Nat :=
  (if after_in_added n1 dists row_ind threshold nseeds k then 1 else 0) +
    (if after_in_exact n1 row_ind ss1 ss2 k then 1 else 0) +
    (if after_in_modify n1 dists row_ind threshold nseeds ss1 ss2 k then 1 else 0)

theorem mem_enum_pairs (row_ind : List Nat) (n1 i : Nat) (hi : i < n1)
    (hlen : n1 ≤ row_ind.length) :
    (i, row_ind.getD i 0) ∈ enum_pairs n1 row_ind := by
  rw [enum_pairs, List.mk_mem_enum_iff_getElem?]
  have h1 : i < (row_ind.take n1).length := by simp [List.length_take]; omega
  rw [List.getElem?_eq_getElem h1]
  congr 1
  rw [List.getElem_take]
  exact (List.getD_eq_getElem row_ind 0 (by omega)).symm

/-- Consistency of the per-index predicate with the pair-list embedding of
the `deleted` set: for an in-range before index, `in_deleted` holds exactly
when the index's assignment pair is in `deleted_pairs`. -/
theorem in_deleted_iff_mem (n1 : Nat) (dists : Nat → Nat → ℚ) (row_ind : List Nat)
    (threshold : ℚ) (nseeds i : Nat) (hi : i < n1) (hlen : n1 ≤ row_ind.length) :
    in_deleted n1 dists row_ind threshold nseeds i ↔
      (i, row_ind.getD i 0) ∈ deleted_pairs n1 dists row_ind threshold nseeds := by
  rw [deleted_pairs, List.mem_filter]
  have hb : deletedB n1 dists threshold nseeds (i, row_ind.getD i 0) = true ↔
      in_deleted n1 dists row_ind threshold nseeds i := by
    simp [deletedB, in_deleted]
  constructor
  · intro h
    exact ⟨mem_enum_pairs row_ind n1 i hi hlen, hb.mpr h⟩
  · intro h
    exact hb.mp h.2

/-- Consistency of `in_exact` with the pair-list embedding of the `exact`
set. -/
theorem in_exact_iff_mem (n1 : Nat) (dists : Nat → Nat → ℚ) (row_ind : List Nat)
    (threshold : ℚ) (nseeds : Nat) (ss1 ss2 : Nat → List Nat) (i : Nat) (hi : i < n1)
    (hlen : n1 ≤ row_ind.length) :
    in_exact n1 row_ind ss1 ss2 i ↔
      (i, row_ind.getD i 0) ∈ exact_pairs n1 dists row_ind threshold nseeds ss1 ss2 := by
  rw [exact_pairs, List.mem_filter]
  have hb : exactB n1 ss1 ss2 (i, row_ind.getD i 0) = true ↔
      in_exact n1 row_ind ss1 ss2 i := by
    simp [exactB, in_exact]
  constructor
  · intro h
    exact ⟨mem_enum_pairs row_ind n1 i hi hlen, hb.mpr h⟩
  · intro h
    exact hb.mp h.2

/-- Consistency of `in_modify` with the pair-list embedding of the fuzzy
match set. -/
theorem in_modify_iff_mem (n1 : Nat) (dists : Nat → Nat → ℚ) (row_ind : List Nat)
    (threshold : ℚ) (nseeds : Nat) (ss1 ss2 : Nat → List Nat) (i : Nat) (hi : i < n1)
    (hlen : n1 ≤ row_ind.length) :
    in_modify n1 dists row_ind threshold nseeds ss1 ss2 i ↔
      (i, row_ind.getD i 0) ∈ modify_pairs n1 dists row_ind threshold nseeds ss1 ss2 := by
  rw [modify_pairs, List.mem_filter]
  have hbd : deletedB n1 dists threshold nseeds (i, row_ind.getD i 0) = true ↔
      in_deleted n1 dists row_ind threshold nseeds i := by
    simp [deletedB, in_deleted]
  have hbe : exactB n1 ss1 ss2 (i, row_ind.getD i 0) = true ↔
      in_exact n1 row_ind ss1 ss2 i := by
    simp [exactB, in_exact]
  have hb : (!deletedB n1 dists threshold nseeds (i, row_ind.getD i 0) &&
      !exactB n1 ss1 ss2 (i, row_ind.getD i 0)) = true ↔
      in_modify n1 dists row_ind threshold nseeds ss1 ss2 i := by
    rw [Bool.and_eq_true, Bool.not_eq_true', Bool.not_eq_true']
    unfold in_modify
    constructor
    · rintro ⟨hd, he⟩
      refine ⟨fun h => ?_, fun h => ?_⟩
      · rw [hbd.mpr h] at hd
        exact Bool.noConfusion hd
      · rw [hbe.mpr h] at he
        exact Bool.noConfusion he
    · rintro ⟨hd, he⟩
      constructor
      · cases hdb : deletedB n1 dists threshold nseeds (i, row_ind.getD i 0) with
        | false => rfl
        | true => exact absurd (hbd.mp hdb) hd
      · cases heb : exactB n1 ss1 ss2 (i, row_ind.getD i 0) with
        | false => rfl
        | true => exact absurd (hbe.mp heb) he
  constructor
  · intro h
    exact ⟨mem_enum_pairs row_ind n1 i hi hlen, hb.mpr h⟩
  · intro h
    exact hb.mp h.2

/-- C7 (amended): provided the assignment is injective on the before rows
and no assigned pair has equal supersketches together with a distance above
`threshold * nseeds` (the `deleted`/`exact` overlap the classification
admits), every before-index lies in exactly one of {deleted, exact, modify}
and every after-index in exactly one of {added, exact, modify}. -/
theorem partition_amended (n1 n2 nseeds : Nat) (dists : Nat → Nat → ℚ)
    (row_ind : List Nat) (threshold : ℚ) (ss1 ss2 : Nat → List Nat)
    (hinj : ∀ i1 ∈ List.range n1, ∀ i2 ∈ List.range n1,
      row_ind.getD i1 0 = row_ind.getD i2 0 → i1 = i2)
    (hsep : ∀ i ∈ List.range n1, in_exact n1 row_ind ss1 ss2 i →
      ¬ threshold * nseeds < dists i (row_ind.getD i 0)) :
    (∀ i ∈ List.range n1, before_count n1 dists row_ind threshold nseeds ss1 ss2 i = 1) ∧
    (∀ k ∈ List.range n2, after_count n1 dists row_ind threshold nseeds ss1 ss2 k = 1) := by
  constructor
  · intro i hi
    by_cases hd : in_deleted n1 dists row_ind threshold nseeds i
    · have hne : ¬ in_exact n1 row_ind ss1 ss2 i := by
        intro he
        rcases hd with hd | hd
        · have h2 := he.1
          omega
        · exact hsep i hi he hd
      have hnm : ¬ in_modify n1 dists row_ind threshold nseeds ss1 ss2 i :=
        fun h => h.1 hd
      simp [before_count, hd, hne, hnm]
    · by_cases he : in_exact n1 row_ind ss1 ss2 i
      · have hnm : ¬ in_modify n1 dists row_ind threshold nseeds ss1 ss2 i :=
          fun h => h.2 he
        simp [before_count, hd, he, hnm]
      · have hm : in_modify n1 dists row_ind threshold nseeds ss1 ss2 i := ⟨hd, he⟩
        simp [before_count, hd, he, hm]
  · intro k hk
    by_cases hE : ∃ i ∈ List.range n1, row_ind.getD i 0 = n1 + k
    · obtain ⟨i0, hi0, hrow⟩ := hE
      have huniq : ∀ i ∈ List.range n1, row_ind.getD i 0 = n1 + k → i = i0 := by
        intro i hi h
        exact hinj i hi i0 hi0 (h.trans hrow.symm)
      by_cases hd : in_deleted n1 dists row_ind threshold nseeds i0
      · have hadd : after_in_added n1 dists row_ind threshold nseeds k := by
          rintro ⟨i, hi, h1, h2⟩
          have hii := huniq i hi h1
          subst hii
          exact h2 hd
        have hnex : ¬ after_in_exact n1 row_ind ss1 ss2 k := by
          rintro ⟨i, hi, h1, he⟩
          have hii := huniq i hi h1
          subst hii
          rcases hd with hd | hd
          · omega
          · exact hsep i hi he hd
        have hnmod : ¬ after_in_modify n1 dists row_ind threshold nseeds ss1 ss2 k := by
          rintro ⟨i, hi, h1, hm⟩
          have hii := huniq i hi h1
          subst hii
          exact hm.1 hd
        simp [after_count, hadd, hnex, hnmod]
      · have hnadd : ¬ after_in_added n1 dists row_ind threshold nseeds k := by
          intro h
          exact h ⟨i0, hi0, hrow, hd⟩
        by_cases he : in_exact n1 row_ind ss1 ss2 i0
        · have hex : after_in_exact n1 row_ind ss1 ss2 k := ⟨i0, hi0, hrow, he⟩
          have hnmod : ¬ after_in_modify n1 dists row_ind threshold nseeds ss1 ss2 k := by
            rintro ⟨i, hi, h1, hm⟩
            have hii := huniq i hi h1
            subst hii
            exact hm.2 he
          simp [after_count, hnadd, hex, hnmod]
        · have hmod : after_in_modify n1 dists row_ind threshold nseeds ss1 ss2 k :=
            ⟨i0, hi0, hrow, ⟨hd, he⟩⟩
          have hnex : ¬ after_in_exact n1 row_ind ss1 ss2 k := by
            rintro ⟨i, hi, h1, he2⟩
            have hii := huniq i hi h1
            subst hii
            exact he he2
          simp [after_count, hnadd, hnex, hmod]
    · have hadd : after_in_added n1 dists row_ind threshold nseeds k := by
        rintro ⟨i, hi, h1, _⟩
        exact hE ⟨i, hi, h1⟩
      have hnex : ¬ after_in_exact n1 row_ind ss1 ss2 k := by
        rintro ⟨i, hi, h1, _⟩
        exact hE ⟨i, hi, h1⟩
      have hnmod : ¬ after_in_modify n1 dists row_ind threshold nseeds ss1 ss2 k := by
        rintro ⟨i, hi, h1, _⟩
        exact hE ⟨i, hi, h1⟩
      simp [after_count, hadd, hnex, hnmod]

/-- C7 (witness): the amended partition at a one-pair instance with
distance 0 and equal supersketches. -/
theorem partition_witness :
    (∀ i ∈ List.range 1,
      before_count 1 (fun _ _ => (0 : ℚ)) [1, 0] 8 10 (fun _ => []) (fun _ => []) i = 1) ∧
    (∀ k ∈ List.range 1,
      after_count 1 (fun _ _ => (0 : ℚ)) [1, 0] 8 10 (fun _ => []) (fun _ => []) k = 1) :=
  partition_amended 1 1 10 (fun _ _ => (0 : ℚ)) [1, 0] 8 (fun _ => []) (fun _ => [])
    (by decide) (by intro i _ _; norm_num)

/-- C7 (counterexample): a pair with equal supersketches whose distance 81
exceeds `threshold * nseeds = 80` lies in both `deleted` and `exact`, so
its before-node appears in two of the classification sets, not exactly
one. -/
theorem partition_counterexample :
    before_count 1 (fun _ _ => (81 : ℚ)) [1, 0] 8 10 (fun _ => [0]) (fun _ => [0]) 0 = 2 ∧
    before_count 1 (fun _ _ => (81 : ℚ)) [1, 0] 8 10 (fun _ => [0]) (fun _ => [0]) 0 ≠ 1 := by
  have hd : in_deleted 1 (fun _ _ => (81 : ℚ)) [1, 0] 8 10 0 := by
    unfold in_deleted
    exact Or.inr (by norm_num)
  have he : in_exact 1 [1, 0] (fun _ => ([0] : List Nat)) (fun _ => [0]) 0 := by
    unfold in_exact
    exact ⟨by decide, rfl⟩
  have hnm : ¬ in_modify 1 (fun _ _ => (81 : ℚ)) [1, 0] 8 10 (fun _ => [0]) (fun _ => [0]) 0 :=
    fun h => h.1 hd
  constructor
  · simp [before_count, hd, he, hnm]
  · simp [before_count, hd, he, hnm]

/-! ## Helper lemmas for the treediff-level claims -/

theorem closed_runs_no_pm (sd : List DLine)
    (h : ∀ e ∈ sd, ¬(e.mark = '+' ∨ e.mark = '-')) : closed_runs false sd = 0 := by
  induction sd with
  | nil => rfl
  | cons e rest ih =>
    have he := h e (by simp)
    simp only [closed_runs, if_neg he, if_neg (by simp : ¬ False)]
    have := ih (fun x hx => h x (by simp [hx]))
    simpa using this

theorem raw_intervals_no_pm (sd : List DLine)
    (h : ∀ e ∈ sd, ¬(e.mark = '+' ∨ e.mark = '-')) : raw_intervals sd = [] := by
  have h1 := raw_fold_length sd init_state []
  rw [show pendingB init_state = false from rfl, closed_runs_no_pm sd h] at h1
  exact List.length_eq_zero.mp (by simpa [raw_intervals] using h1)

theorem adjust_seqdiff_no_pm (sd : List DLine) (src_after : List String)
    (lines : List (List Nat)) (h : ∀ e ∈ sd, ¬(e.mark = '+' ∨ e.mark = '-')) :
    adjust_seqdiff sd src_after lines = some [] := by
  unfold adjust_seqdiff
  rw [raw_intervals_no_pm sd h]
  rfl

theorem set_update_nodup (t : List Nat) : ∀ s : List Nat, s.Nodup → (set_update s t).Nodup := by
  induction t with
  | nil => intro s h; exact h
  | cons x t ih =>
    intro s h
    rw [show set_update s (x :: t) = set_update (if x ∈ s then s else s.concat x) t from rfl]
    refine ih _ ?_
    by_cases hx : x ∈ s
    · rw [if_pos hx]; exact h
    · rw [if_neg hx]
      rw [List.concat_eq_append, List.nodup_append]
      exact ⟨h, List.nodup_singleton x, by simpa [List.disjoint_singleton] using hx⟩

theorem filter_changed_nodup_aux :
    ∀ (prs : List (Nat × Nat)) (l2n : List (List Nat)) (acc : List Nat), acc.Nodup →
      ∀ w, prs.foldlM (fun acc lr =>
        match line2nodes_interval l2n lr.1 lr.2 with
        | none => none
        | some s => some (set_update acc s)) acc = some w → w.Nodup := by
  intro prs
  induction prs with
  | nil =>
    intro l2n acc hacc w hw
    simp only [List.foldlM_nil, pure, Option.some.injEq] at hw
    exact hw ▸ hacc
  | cons p prs ih =>
    intro l2n acc hacc w hw
    rw [List.foldlM_cons] at hw
    cases hli : line2nodes_interval l2n p.1 p.2 with
    | none => rw [hli] at hw; exact absurd hw (by simp)
    | some s =>
      rw [hli] at hw
      exact ih l2n (set_update acc s) (set_update_nodup s acc hacc) w hw

theorem filter_changed_nodup (prs : List (Nat × Nat)) (l2n : List (List Nat)) (w : List Nat)
    (h : filter_changed prs l2n = some w) : w.Nodup :=
  filter_changed_nodup_aux prs l2n [] List.nodup_nil w h

/-! ## C1: identity -/

/-- C1 (amended): when the tree's positioned nodes fit into the source's
line count (`Line2Nodes` construction succeeds) and the text differ
reports every line unchanged on equal inputs (as `difflib.Differ.compare`
does), `treediff(src, tree, src, tree)` returns the empty script. -/
theorem treediff_identity (differ : List String → List String → List DLine)
    (lapjv : (Nat → Nat → ℚ) → Nat → List Nat) (src : String) (t : Node) (S : Nat)
    (L : List (List Nat))
    (hdiff : differ (splitlines src) (splitlines src) =
      (splitlines src).map (fun l => ⟨' ', l⟩))
    (hl : line2nodes_init (splitlines src).length t = some L) :
    treediff differ lapjv src t src t S = some [] := by
  have hadj : adjust_seqdiff (differ (splitlines src) (splitlines src)) (splitlines src) L
      = some [] := by
    rw [hdiff]
    apply adjust_seqdiff_no_pm
    intro e he
    rcases List.mem_map.mp he with ⟨l, _, rfl⟩
    simp
  simp only [treediff, hl, hadj, List.map_nil]
  rfl

/-- Constant differ that marks every before-line unchanged; on equal
inputs it realises the difflib equal-input contract. -/
def differ_spaces : List String → List String → List DLine :=
  fun a _ => a.map (fun l => ⟨' ', l⟩)

/-- Assignment-solver stub (never reached in the short-circuit paths). -/
def lapjv_stub : (Nat → Nat → ℚ) → Nat → List Nat := fun _ _ => []

/-- One-line, one-node source/tree pair. -/
def leaf_a : Node := ⟨1, "a", [], 1, 1, []⟩

/-- C1 (witness): the identity theorem applied to the one-line source
`"a\n"` with a single positioned node. -/
theorem treediff_identity_witness :
    differ_spaces (splitlines "a\n") (splitlines "a\n") =
      (splitlines "a\n").map (fun l => ⟨' ', l⟩) ∧
    treediff differ_spaces lapjv_stub "a\n" leaf_a "a\n" leaf_a 10 = some [] :=
  ⟨rfl, treediff_identity differ_spaces lapjv_stub "a\n" leaf_a 10 [[1]] rfl rfl⟩

/-- A positioned one-node tree paired with an empty source text. -/
def positioned_leaf : Node := ⟨1, "", [], 1, 1, []⟩

/-- C1 (counterexample): on the empty source with a tree whose node covers
line 1, `Line2Nodes(0, tree)` raises IndexError before any diffing, so
`treediff(src, tree, src, tree)` raises instead of returning an empty
script — the claim fails without the fitting precondition. -/
theorem treediff_identity_counterexample :
    treediff differ_spaces lapjv_stub "" positioned_leaf "" positioned_leaf 10 = none ∧
    treediff differ_spaces lapjv_stub "" positioned_leaf "" positioned_leaf 10 ≠ some [] := by
  exact ⟨rfl, by decide⟩

/-! ## C8: the empty-whitelist short-circuits -/

/-- C8: when the computed before-whitelist is empty, `treediff` returns
exactly an `add` operation per after-whitelist node and nothing else; when
the before-whitelist is non-empty and the after-whitelist is empty, it
returns exactly a `delete` per before-whitelist node; neither is an error,
and the whitelists are duplicate-free so each node occurs exactly once. -/
theorem treediff_empty_whitelist (differ : List String → List String → List DLine)
    (lapjv : (Nat → Nat → ℚ) → Nat → List Nat) (src1 src2 : String) (t1 t2 : Node)
    (S : Nat) (L1 L2 : List (List Nat)) (adj : List Iv4) (w1 w2 : List Nat)
    (h1 : line2nodes_init (splitlines src1).length t1 = some L1)
    (h2 : line2nodes_init (splitlines src2).length t2 = some L2)
    (hadj : adjust_seqdiff (differ (splitlines src1) (splitlines src2)) (splitlines src2) L2
      = some adj)
    (hw1 : filter_changed (adj.map (fun i => (i.sb, i.eb))) L1 = some w1)
    (hw2 : filter_changed (adj.map (fun i => (i.sa, i.ea))) L2 = some w2) :
    (w1 = [] → treediff differ lapjv src1 t1 src2 t2 S = some (w2.map Op.add)) ∧
    (w1 ≠ [] → w2 = [] → treediff differ lapjv src1 t1 src2 t2 S = some (w1.map Op.delete)) ∧
    w1.Nodup ∧ w2.Nodup := by
  refine ⟨?_, ?_, filter_changed_nodup _ _ _ hw1, filter_changed_nodup _ _ _ hw2⟩
  · intro hw
    subst hw
    simp only [treediff, h1, h2, hadj, hw1, hw2]
    rfl
  · intro hne hw
    subst hw
    have hemp : w1.isEmpty = false := by
      cases w1 with
      | nil => exact absurd rfl hne
      | cons a l => rfl
    simp only [treediff, h1, h2, hadj, hw1, hw2, hemp]
    rfl

/-- Constant differ standing for a diff that removes line `"x\n"` and
keeps `"y\n"`. -/
def differ_rm : List String → List String → List DLine :=
  fun _ _ => [⟨'-', "x\n"⟩, ⟨' ', "y\n"⟩]

/-- Before-side tree: one node on line 1. -/
def node_b5 : Node := ⟨5, "", [], 1, 1, []⟩

/-- After-side tree: a single positionless node, so the after-whitelist is
empty. -/
def node_a9 : Node := ⟨9, "", [], 0, 0, []⟩

/-- C8 (witness): the short-circuit theorem applied to a concrete diff
whose before-whitelist is `[5]` and whose after-whitelist is empty: the
result is exactly one delete for node 5. -/
theorem treediff_empty_whitelist_witness :
    ([5] : List Nat) ≠ [] ∧
    treediff differ_rm lapjv_stub "x\ny\n" node_b5 "y\n" node_a9 10 = some [Op.delete 5] ∧
    ([5] : List Nat).Nodup := by
  have h := treediff_empty_whitelist differ_rm lapjv_stub "x\ny\n" "y\n" node_b5 node_a9 10
    [[5], []] [[]] [⟨0, 1, 0, 0⟩] [5] [] rfl rfl rfl rfl rfl
  exact ⟨by decide, h.2.1 (by decide) rfl, h.2.2.1⟩

end Treediff
